import Mathlib

/-!
Shallow embedding of `source/common/json/json_loader.cc` (C++ namespace
`Json`): the rapidjson-backed `ObjectImplBase` typed view with its
accessors, iteration, hashing, and the `Factory::LoadFromString` entry
point, together with theorems about their behaviour.
-/

namespace JsonLoader

/-- A parsed JSON document node, mirroring the rapidjson value kinds that
`json_loader.cc` queries through `IsBool`, `IsInt64`, `IsDouble`,
`IsString`, `IsArray`, `IsObject`.  Numbers keep rapidjson's tag
distinction: `vint` for values carrying the int64 flag, `vuint` for
integer literals that fit in uint64 but not int64 (int64 flag and double
flag both clear), and `vdouble` for values carrying the double flag
(numbers written with a fraction or exponent, or out of uint64 range).
Floating point is not shallowly embedded: a `vdouble` payload is
identified by the decimal text rapidjson's `dtoa` (used by `Writer`)
would emit for it, a faithful quotient for every operation modelled here,
which only inspects type tags or re-serializes. -/
inductive JValue where
  | vnull
  | vbool (b : Bool)
  | vint (n : Int)
  | vuint (n : Nat)
  | vdouble (rep : String)
  | vstr (s : String)
  | varr (elems : List JValue)
  | vobj (members : List (String × JValue))

/-- The single-quote character; the fmt error messages of `json_loader.cc`
wrap key and view names in single quotes. -/
def sq : String := "\x27"

/-- A name wrapped in single quotes, as rendered by the fmt format strings
of `json_loader.cc`. -/
def quoted (s : String) : String := sq ++ s ++ sq

/-- The message of the `Json::Exception` thrown by the member accessors:
for example `key 'k' missing or not a boolean in 'root'`. -/
def missingMsg (what : String) (key : String) (viewName : String) : String :=
  "key " ++ quoted key ++ " missing or not " ++ what ++ " in " ++ quoted viewName

/-- The typed view `Json::ObjectImplBase`: a diagnostic name plus a
borrowed reference to a rapidjson value. -/
structure ObjectImplBase where
  name_ : String
  value_ : JValue

/-- Model of `rapidjson::Value::FindMember`: a linear scan over an object's member
sequence, stopping at the first member whose name matches. -/
def findMember : List (String × JValue) → String → Option JValue
  | [], _ => none
  | (k, v) :: rest, nm => if k = nm then some v else findMember rest nm

/-- The member list of the view's bound value.  rapidjson asserts
`IsObject()` inside `FindMember` / `GetObject`; every claim quantifies
over object views only, so a non-object view is modelled as having no
members. -/
def ObjectImplBase.members (o : ObjectImplBase) : List (String × JValue) :=
  match o.value_ with
  | .vobj ms => ms
  | _ => []

/-- Model of `ObjectImplBase::hasObject`: `value_.HasMember(name)`. -/
def ObjectImplBase.hasObject (o : ObjectImplBase) (name : String) : Bool :=
  (findMember o.members name).isSome

/-- Model of `ObjectImplBase::getBoolean(name)`: fails unless the member is present
and carries the bool tag. -/
def ObjectImplBase.getBoolean (o : ObjectImplBase) (name : String) :
    Except String Bool :=
  match findMember o.members name with
  | some (.vbool b) => .ok b
  | _ => .error (missingMsg "a boolean" name o.name_)

/-- Model of `ObjectImplBase::getBoolean(name, default_value)`: absent key returns
the default, otherwise delegates to the strict accessor. -/
def ObjectImplBase.getBooleanDefault (o : ObjectImplBase) (name : String)
    (default_value : Bool) : Except String Bool :=
  if o.hasObject name = false then .ok default_value
  else o.getBoolean name

/-- Model of `ObjectImplBase::getInteger(name)`: fails unless the member is present
and `IsInt64()` holds. -/
def ObjectImplBase.getInteger (o : ObjectImplBase) (name : String) :
    Except String Int :=
  match findMember o.members name with
  | some (.vint n) => .ok n
  | _ => .error (missingMsg "an integer" name o.name_)

/-- Model of `ObjectImplBase::getInteger(name, default_value)`. -/
def ObjectImplBase.getIntegerDefault (o : ObjectImplBase) (name : String)
    (default_value : Int) : Except String Int :=
  if o.hasObject name = false then .ok default_value
  else o.getInteger name

/-- Model of `ObjectImplBase::getDouble(name)`: fails unless the member is present
and `IsDouble()` holds (the double tag is never set on int64 or uint64
tagged numbers). -/
def ObjectImplBase.getDouble (o : ObjectImplBase) (name : String) :
    Except String String :=
  match findMember o.members name with
  | some (.vdouble r) => .ok r
  | _ => .error (missingMsg "a double" name o.name_)

/-- Model of `ObjectImplBase::getDouble(name, default_value)`. -/
def ObjectImplBase.getDoubleDefault (o : ObjectImplBase) (name : String)
    (default_value : String) : Except String String :=
  if o.hasObject name = false then .ok default_value
  else o.getDouble name

/-- Model of `ObjectImplBase::getString(name)`. -/
def ObjectImplBase.getString (o : ObjectImplBase) (name : String) :
    Except String String :=
  match findMember o.members name with
  | some (.vstr s) => .ok s
  | _ => .error (missingMsg "a string" name o.name_)

/-- Model of `ObjectImplBase::getString(name, default_value)`. -/
def ObjectImplBase.getStringDefault (o : ObjectImplBase) (name : String)
    (default_value : String) : Except String String :=
  if o.hasObject name = false then .ok default_value
  else o.getString name

/-- Model of `ObjectImplBase::getObject(name, allow_empty)`: an absent key yields
the canonical empty object view when `allow_empty` is set, and otherwise
throws with the source's own (copy-pasted) `missing or not an integer`
message; a present member is wrapped with no type check, the new view
named after the key. -/
def ObjectImplBase.getObject (o : ObjectImplBase) (name : String)
    (allow_empty : Bool) : Except String ObjectImplBase :=
  match findMember o.members name with
  | none =>
    if allow_empty = false then .error (missingMsg "an integer" name o.name_)
    else .ok ⟨name, .vobj []⟩
  | some v => .ok ⟨name, v⟩

/-- Model of `ObjectImplBase::asObjectArray`: requires the view's own value to be
an array; children are named `<view name> (array item)`. -/
def ObjectImplBase.asObjectArray (o : ObjectImplBase) :
    Except String (List ObjectImplBase) :=
  match o.value_ with
  | .varr es => .ok (es.map fun v => ⟨o.name_ ++ " (array item)", v⟩)
  | _ => .error (quoted o.name_ ++ " is not an array")

/-- Model of `ObjectImplBase::getObjectArray(name)`: requires the member to exist
and be an array; children are named `<key> (array item)`; the message
keeps the source's `not a array` wording. -/
def ObjectImplBase.getObjectArray (o : ObjectImplBase) (name : String) :
    Except String (List ObjectImplBase) :=
  match findMember o.members name with
  | some (.varr es) => .ok (es.map fun v => ⟨name ++ " (array item)", v⟩)
  | _ => .error (missingMsg "a array" name o.name_)

/-- The element loop of `ObjectImplBase::getStringArray`: strings are
collected in order and the first non-string element throws. -/
def stringElems (name : String) : List JValue → Except String (List String)
  | [] => .ok []
  | .vstr s :: rest => (stringElems name rest).map (fun ss => s :: ss)
  | _ :: _ => .error ("array " ++ quoted name ++ " does not contain all strings")

/-- Model of `ObjectImplBase::getStringArray(name)`: requires the member to exist
and be an array, then requires every element to be a string. -/
def ObjectImplBase.getStringArray (o : ObjectImplBase) (name : String) :
    Except String (List String) :=
  match findMember o.members name with
  | some (.varr es) => stringElems name es
  | _ => .error (missingMsg "an array" name o.name_)

/-- Model of `ObjectImplBase::asString`: requires the view's own value to be a
string. -/
def ObjectImplBase.asString (o : ObjectImplBase) : Except String String :=
  match o.value_ with
  | .vstr s => .ok s
  | _ => .error (quoted o.name_ ++ " is not a string")

/-- Model of `ObjectImplBase::empty`: `value_.IsObject() && value_.ObjectEmpty()`. -/
def ObjectImplBase.empty (o : ObjectImplBase) : Bool :=
  match o.value_ with
  | .vobj ms => ms.isEmpty
  | _ => false

/-- The loop of `ObjectImplBase::iterate`: each member is offered in
declaration order to the callback together with a fresh child view named
after the member key; the callback's side effects are modelled by
explicit state threading, and a `false` continue flag breaks the loop. -/
def iterateGo {σ : Type _} (callback : σ → String → ObjectImplBase → σ × Bool) :
    List (String × JValue) → σ → σ
  | [], s => s
  | (k, v) :: rest, s =>
    let r := callback s k ⟨k, v⟩
    if r.2 then iterateGo callback rest r.1 else r.1

/-- Model of `ObjectImplBase::iterate(callback)` over the view's members. -/
def ObjectImplBase.iterate {σ : Type _} (o : ObjectImplBase)
    (callback : σ → String → ObjectImplBase → σ × Bool) (s : σ) : σ :=
  iterateGo callback o.members s

/-- One hex digit of `rapidjson::Writer::WriteString` (uppercase table). -/
def hexDigit (n : Nat) : Char :=
  if n < 10 then Char.ofNat (48 + n) else Char.ofNat (55 + n)

/-- Four hex digits of a `\uXXXX` escape. -/
def hex4 (n : Nat) : String :=
  String.mk [hexDigit (n / 4096 % 16), hexDigit (n / 256 % 16),
             hexDigit (n / 16 % 16), hexDigit (n % 16)]

/-- Escaping of one character by `rapidjson::Writer::WriteString` with
default writer flags: quote, backslash and the C control escapes get a
two-character escape, remaining control characters become `\uXXXX`, and
everything else (including non-ASCII) is passed through. -/
def escapeChar (c : Char) : String :=
  if c = '"' then "\\\""
  else if c = '\\' then "\\\\"
  else if c = '\x08' then "\\b"
  else if c = '\x0c' then "\\f"
  else if c = '\n' then "\\n"
  else if c = '\r' then "\\r"
  else if c = '\t' then "\\t"
  else if c.toNat < 32 then "\\u" ++ hex4 c.toNat
  else String.singleton c

/-- A JSON string literal as emitted by `Writer::WriteString`. -/
def writeJsonString (s : String) : String :=
  "\"" ++ String.join (s.data.map escapeChar) ++ "\""

mutual

/-- The minimal serialization produced by `rapidjson::Writer` when the
subtree is visited through `value_.Accept(writer)` in
`ObjectImplBase::hash`: no whitespace, members and elements in stored
order, strings escaped as `WriteString` does, numbers re-emitted from
their stored value. -/
def writeJson : JValue → String
  | .vnull => "null"
  | .vbool true => "true"
  | .vbool false => "false"
  | .vint n => toString n
  | .vuint n => toString n
  | .vdouble r => r
  | .vstr s => writeJsonString s
  | .varr es => "[" ++ writeElems es ++ "]"
  | .vobj ms => "\x7b" ++ writeMembers ms ++ "\x7d"

/-- Comma-separated serialization of array elements. -/
def writeElems : List JValue → String
  | [] => ""
  | [e] => writeJson e
  | e :: e2 :: rest => writeJson e ++ "," ++ writeElems (e2 :: rest)

/-- Comma-separated serialization of object members. -/
def writeMembers : List (String × JValue) → String
  | [] => ""
  | [(k, v)] => writeJsonString k ++ ":" ++ writeJson v
  | (k, v) :: m :: rest =>
    writeJsonString k ++ ":" ++ writeJson v ++ "," ++ writeMembers (m :: rest)

end

/-- UTF-8 encoding of one character, giving the bytes of the
`std::string` handed to `std::hash`. -/
def utf8Bytes (c : Char) : List Nat :=
  let n := c.toNat
  if n < 128 then [n]
  else if n < 2048 then [192 + n / 64, 128 + n % 64]
  else if n < 65536 then [224 + n / 4096, 128 + n / 64 % 64, 128 + n % 64]
  else [240 + n / 262144, 128 + n / 4096 % 64, 128 + n / 64 % 64, 128 + n % 64]

/-- The UTF-8 byte sequence of a string. -/
def strBytes (s : String) : List Nat :=
  (s.data.map utf8Bytes).flatten

/-- 2 to the power 64; `size_t` arithmetic in the byte hash is reduced
modulo this. -/
def M64 : Nat := 18446744073709551616

/-- The multiplier of libstdc++ `_Hash_bytes`, the MurmurHash-style
function behind `std::hash<std::string>` on a 64-bit libstdc++. -/
def hashMul : Nat := 0xc6a4a7935bd1e995

/-- The `shift_mix` step of libstdc++ `_Hash_bytes`. -/
def shiftMix (v : Nat) : Nat := v ^^^ (v >>> 47)

/-- Little-endian load of a byte list (`unaligned_load` on full chunks,
`load_bytes` on the tail). -/
def loadLE : List Nat → Nat
  | [] => 0
  | b :: rest => b + 256 * loadLE rest

/-- The chunk loop of `_Hash_bytes`: full 8-byte little-endian chunks
are mixed in; a non-empty tail of fewer than 8 bytes is xored in and
multiplied once. -/
def hashLoop : Nat → List Nat → Nat
  | h, b0 :: b1 :: b2 :: b3 :: b4 :: b5 :: b6 :: b7 :: rest =>
    let data := shiftMix (loadLE [b0, b1, b2, b3, b4, b5, b6, b7] * hashMul % M64)
                  * hashMul % M64
    hashLoop ((h ^^^ data) * hashMul % M64) rest
  | h, [] => h
  | h, tail => (h ^^^ loadLE tail) * hashMul % M64

/-- libstdc++ `_Hash_bytes(ptr, len, seed)` for 64-bit `size_t`. -/
def hashBytes (bytes : List Nat) (seed : Nat) : Nat :=
  let h0 := seed ^^^ (bytes.length * hashMul % M64)
  let h1 := hashLoop h0 bytes
  shiftMix (shiftMix h1 * hashMul % M64)

/-- Model of `std::hash<std::string>` as implemented by libstdc++:
`_Hash_bytes(s.data(), s.length(), 0xc70f6907)`. -/
def stdHashString (s : String) : Nat :=
  hashBytes (strBytes s) 0xc70f6907

/-- Model of `ObjectImplBase::hash`: serialize the subtree with `Writer` into a
string buffer and hash the resulting string. -/
def ObjectImplBase.hash (o : ObjectImplBase) : Nat :=
  stdHashString (writeJson o.value_)

/-- A parse failure: a character offset into the input and a message,
mirroring `GetErrorOffset()` / `GetParseError_En(...)`. -/
abbrev ParseErr : Type := Nat × String

/-- Whitespace skipping of the JSON grammar, tracking the offset. -/
def skipWs : List Char → Nat → List Char × Nat
  | c :: rest, p =>
    if c == '\x20' || c == '\t' || c == '\n' || c == '\r' then skipWs rest (p + 1)
    else (c :: rest, p)
  | [], p => ([], p)

/-- Value of one hex digit, if any. -/
def hexVal (c : Char) : Option Nat :=
  let n := c.toNat
  if 48 ≤ n ∧ n ≤ 57 then some (n - 48)
  else if 97 ≤ n ∧ n ≤ 102 then some (n - 87)
  else if 65 ≤ n ∧ n ≤ 70 then some (n - 55)
  else none

/-- Modelled from the spec: the string scanner of the external parser
collaborator (rapidjson, not part of this repository), per the contract
`parse(text) -> Node | ParseError(offset, message)` of the spec.  Reads
characters after an opening quote up to the closing quote, decoding the
JSON escapes including `\uXXXX` surrogate pairs.  Returns the decoded
characters, the remaining input and the offset after the quote. -/
def scanStrChars : Nat → List Char → Nat → Except ParseErr (List Char × List Char × Nat)
  | 0, _, p => .error (p, "Parse depth exceeded.")
  | _ + 1, [], p => .error (p, "Missing a closing quotation mark in string.")
  | f + 1, c :: rest, p =>
    if c == '"' then .ok ([], rest, p + 1)
    else if c == '\\' then
      match rest with
      | [] => .error (p + 1, "Invalid escape character in string.")
      | e :: rest2 =>
        let simple : Option Char :=
          if e == '"' then some '"'
          else if e == '\\' then some '\\'
          else if e == '/' then some '/'
          else if e == 'b' then some '\x08'
          else if e == 'f' then some '\x0c'
          else if e == 'n' then some '\n'
          else if e == 'r' then some '\r'
          else if e == 't' then some '\t'
          else none
        match simple with
        | some d =>
          match scanStrChars f rest2 (p + 2) with
          | .ok (cs, rem, q) => .ok (d :: cs, rem, q)
          | .error err => .error err
        | none =>
          if e == 'u' then
            match rest2 with
            | h1 :: h2 :: h3 :: h4 :: rest3 =>
              match hexVal h1, hexVal h2, hexVal h3, hexVal h4 with
              | some a, some b, some c3, some d =>
                let code := a * 4096 + b * 256 + c3 * 16 + d
                if 55296 ≤ code ∧ code ≤ 56319 then
                  match rest3 with
                  | '\\' :: 'u' :: g1 :: g2 :: g3 :: g4 :: rest4 =>
                    match hexVal g1, hexVal g2, hexVal g3, hexVal g4 with
                    | some a2, some b2, some c2, some d2 =>
                      let low := a2 * 4096 + b2 * 256 + c2 * 16 + d2
                      if 56320 ≤ low ∧ low ≤ 57343 then
                        let cp := 65536 + (code - 55296) * 1024 + (low - 56320)
                        match scanStrChars f rest4 (p + 12) with
                        | .ok (cs, rem, q) => .ok (Char.ofNat cp :: cs, rem, q)
                        | .error err => .error err
                      else .error (p, "The surrogate pair in string is invalid.")
                    | _, _, _, _ =>
                      .error (p, "Incorrect hex digit after backslash u escape in string.")
                  | _ => .error (p, "The surrogate pair in string is invalid.")
                else if 56320 ≤ code ∧ code ≤ 57343 then
                  .error (p, "The surrogate pair in string is invalid.")
                else
                  match scanStrChars f rest3 (p + 6) with
                  | .ok (cs, rem, q) => .ok (Char.ofNat code :: cs, rem, q)
                  | .error err => .error err
              | _, _, _, _ =>
                .error (p, "Incorrect hex digit after backslash u escape in string.")
            | _ => .error (p, "Incorrect hex digit after backslash u escape in string.")
          else .error (p + 1, "Invalid escape character in string.")
    else if c.toNat < 32 then .error (p, "Invalid encoding in string.")
    else
      match scanStrChars f (rest) (p + 1) with
      | .ok (cs, rem, q) => .ok (c :: cs, rem, q)
      | .error err => .error err

/-- Leading decimal digits of the input. -/
def takeDigits : List Char → List Char × List Char
  | [] => ([], [])
  | c :: rest =>
    if c.isDigit then
      let r := takeDigits rest
      (c :: r.1, r.2)
    else ([], c :: rest)

/-- Numeric value of a digit string. -/
def digitsVal (ds : List Char) : Nat :=
  ds.foldl (fun acc c => acc * 10 + (c.toNat - 48)) 0

/-- Tagging of an integer literal as the external parser would store it:
int64 when it fits in int64, uint64 when it only fits in uint64, double
(kept as its written text) otherwise. -/
def intTagged (neg : Bool) (n : Nat) (tok : String) : JValue :=
  if neg then
    if n ≤ 9223372036854775808 then .vint (-(n : Int)) else .vdouble tok
  else
    if n < 9223372036854775808 then .vint (n : Int)
    else if n < M64 then .vuint n
    else .vdouble tok

/-- Exponent scanning and final classification of a number: a number
with a fraction or exponent is tagged double (its payload is its written
text), otherwise it is an integer literal handed to `intTagged`.  `orig`
and `p0` are the input and offset at the start of the number. -/
def scanNumEnd (orig : List Char) (p0 : Nat) (isDouble : Bool) (neg : Bool)
    (ids : List Char) (cs : List Char) (p : Nat) :
    Except ParseErr (JValue × List Char × Nat) :=
  let finish : Except ParseErr (JValue × List Char × Nat) :=
    if isDouble then .ok (.vdouble (String.mk (orig.take (p - p0))), cs, p)
    else .ok (intTagged neg (digitsVal ids) (String.mk (orig.take (p - p0))), cs, p)
  match cs with
  | e :: rest =>
    if e == 'e' || e == 'E' then
      let (rest2, p2) :=
        match rest with
        | '+' :: r => (r, p + 2)
        | '-' :: r => (r, p + 2)
        | _ => (rest, p + 1)
      let r := takeDigits rest2
      if r.1.isEmpty then .error (p2, "Missing exponent in number.")
      else
        .ok (.vdouble (String.mk (orig.take (p2 + r.1.length - p0))), r.2,
             p2 + r.1.length)
    else finish
  | [] => finish

/-- Modelled from the spec: number scanning of the external parser
collaborator (rapidjson, not part of this repository).  Follows the JSON
number grammar: optional minus, an integer part that is `0` or starts
with a nonzero digit, an optional fraction requiring at least one digit,
an optional exponent requiring at least one digit. -/
def scanNumber (cs : List Char) (p : Nat) : Except ParseErr (JValue × List Char × Nat) :=
  let (neg, cs1, p1) :=
    match cs with
    | '-' :: rest => (true, rest, p + 1)
    | _ => (false, cs, p)
  match cs1 with
  | [] => .error (p1, "Invalid value.")
  | c :: _ =>
    if c.isDigit = false then .error (p1, "Invalid value.")
    else
      let r0 :=
        match cs1 with
        | '0' :: rest => (['0'], rest)
        | _ => takeDigits cs1
      let ids := r0.1
      let cs2 := r0.2
      let p2 := p1 + ids.length
      match cs2 with
      | '.' :: fr =>
        let r := takeDigits fr
        if r.1.isEmpty then .error (p2 + 1, "Missing fraction part in number.")
        else scanNumEnd cs p true neg ids r.2 (p2 + 1 + r.1.length)
      | _ => scanNumEnd cs p false neg ids cs2 p2

mutual

/-- Modelled from the spec: value parsing of the external parser
collaborator (rapidjson, not part of this repository), per the spec
contract `parse(text) -> Node | ParseError(offset, message)`: a JSON
value is a literal, a string, a number, an array or an object.  The
fuel argument only bounds recursion and never runs out for the initial
fuel supplied by `parseDocument`. -/
def parseValue : Nat → List Char → Nat → Except ParseErr (JValue × List Char × Nat)
  | 0, _, p => .error (p, "Parse depth exceeded.")
  | f + 1, cs, p =>
    match cs with
    | 'n' :: 'u' :: 'l' :: 'l' :: rest => .ok (.vnull, rest, p + 4)
    | 't' :: 'r' :: 'u' :: 'e' :: rest => .ok (.vbool true, rest, p + 4)
    | 'f' :: 'a' :: 'l' :: 's' :: 'e' :: rest => .ok (.vbool false, rest, p + 5)
    | '"' :: rest =>
      match scanStrChars (rest.length + 1) rest (p + 1) with
      | .ok (chars, rem, q) => .ok (.vstr (String.mk chars), rem, q)
      | .error err => .error err
    | '[' :: rest =>
      let s := skipWs rest (p + 1)
      match s.1 with
      | ']' :: rem => .ok (.varr [], rem, s.2 + 1)
      | _ => parseElems f s.1 s.2 []
    | '\x7b' :: rest =>
      let s := skipWs rest (p + 1)
      match s.1 with
      | '\x7d' :: rem => .ok (.vobj [], rem, s.2 + 1)
      | _ => parseMembers f s.1 s.2 []
    | '-' :: _ => scanNumber cs p
    | c :: _ => if c.isDigit then scanNumber cs p else .error (p, "Invalid value.")
    | [] => .error (p, "Invalid value.")

/-- Modelled from the spec: the element loop of array parsing; elements
are collected in order, separated by commas, closed by a bracket. -/
def parseElems : Nat → List Char → Nat → List JValue →
    Except ParseErr (JValue × List Char × Nat)
  | 0, _, p, _ => .error (p, "Parse depth exceeded.")
  | f + 1, cs, p, acc =>
    match parseValue f cs p with
    | .error err => .error err
    | .ok (v, rest, q) =>
      let s := skipWs rest q
      match s.1 with
      | ',' :: rem =>
        let s2 := skipWs rem (s.2 + 1)
        parseElems f s2.1 s2.2 (acc ++ [v])
      | ']' :: rem => .ok (.varr (acc ++ [v]), rem, s.2 + 1)
      | _ => .error (s.2, "Missing a comma or square bracket after an array element.")

/-- Modelled from the spec: the member loop of object parsing; members
are collected in declaration order (duplicate keys are kept), each a
quoted name, a colon and a value, separated by commas, closed by a
curly bracket. -/
def parseMembers : Nat → List Char → Nat → List (String × JValue) →
    Except ParseErr (JValue × List Char × Nat)
  | 0, _, p, _ => .error (p, "Parse depth exceeded.")
  | f + 1, cs, p, acc =>
    match cs with
    | '"' :: rest =>
      match scanStrChars (rest.length + 1) rest (p + 1) with
      | .error err => .error err
      | .ok (kchars, rem, q) =>
        let s := skipWs rem q
        match s.1 with
        | ':' :: rem2 =>
          let s2 := skipWs rem2 (s.2 + 1)
          match parseValue f s2.1 s2.2 with
          | .error err => .error err
          | .ok (v, rest3, q3) =>
            let s3 := skipWs rest3 q3
            match s3.1 with
            | ',' :: rem4 =>
              let s4 := skipWs rem4 (s3.2 + 1)
              parseMembers f s4.1 s4.2 (acc ++ [(String.mk kchars, v)])
            | '\x7d' :: rem4 =>
              .ok (.vobj (acc ++ [(String.mk kchars, v)]), rem4, s3.2 + 1)
            | _ =>
              .error (s3.2, "Missing a comma or curly bracket after an object member.")
        | _ => .error (s.2, "Missing a colon after a name of object member.")
    | _ => .error (p, "Missing a name for object member.")

end

/-- Modelled from the spec: `parseDocument(text) -> Node |
ParseError(offset, message)`, the document-level contract of the
external parser collaborator (`rapidjson::Document::Parse<0>` in the
source, which is not part of this repository): optional whitespace,
exactly one value, optional whitespace and nothing further; an empty
document and a trailing value are errors.  Offsets count characters
from the start of the input. -/
def parseDocument (text : String) : Except ParseErr JValue :=
  let cs := text.data
  let s := skipWs cs 0
  match s.1 with
  | [] => .error (s.2, "The document is empty.")
  | _ =>
    match parseValue (2 * cs.length + 2) s.1 s.2 with
    | .error err => .error err
    | .ok (v, rest, q) =>
      let s2 := skipWs rest q
      match s2.1 with
      | [] => .ok v
      | _ => .error (s2.2, "The document root must not be followed by other values.")

/-- Model of `Factory::LoadFromString`: parse the text (the dead streaming
`PrintHandler` loop in the source only prints and is excluded by the
spec); a parse failure throws an exception rendering the offset and
message, otherwise the document moves into an `ObjectImplRoot` and the
returned root view is named `root`. -/
def Factory.LoadFromString (json : String) : Except String ObjectImplBase :=
  match parseDocument json with
  | .error pe => .error ("Error(offset " ++ toString pe.1 ++ "): " ++ pe.2 ++ "\n")
  | .ok v => .ok ⟨"root", v⟩

/-! ## Theorems -/

/-- C8: `empty()` is true exactly on views bound to an object with zero
members; every other node kind, including an empty array, a string, a
number, a boolean and null, yields `false`; `empty` is a total `Bool`
valued query (`IsObject` and `ObjectEmpty` cannot throw), so it never
fails on any node kind. -/
theorem empty_iff_zero_member_object :
    (∀ o : ObjectImplBase, o.empty = true ↔ o.value_ = .vobj []) ∧
    (∀ nm es, ObjectImplBase.empty ⟨nm, .varr es⟩ = false) ∧
    (∀ nm, ObjectImplBase.empty ⟨nm, .varr []⟩ = false) ∧
    (∀ nm s, ObjectImplBase.empty ⟨nm, .vstr s⟩ = false) ∧
    (∀ nm n, ObjectImplBase.empty ⟨nm, .vint n⟩ = false) ∧
    (∀ nm n, ObjectImplBase.empty ⟨nm, .vuint n⟩ = false) ∧
    (∀ nm r, ObjectImplBase.empty ⟨nm, .vdouble r⟩ = false) ∧
    (∀ nm b, ObjectImplBase.empty ⟨nm, .vbool b⟩ = false) ∧
    (∀ nm, ObjectImplBase.empty ⟨nm, .vnull⟩ = false) := by
  constructor
  · intro o
    obtain ⟨nm, v⟩ := o
    cases v <;> simp [ObjectImplBase.empty, List.isEmpty_iff]
  · refine ⟨?_, ?_, ?_, ?_, ?_, ?_, ?_, ?_⟩ <;> intros <;>
      simp [ObjectImplBase.empty]

/-- C2: the defaulted accessors return the default exactly when the key
is absent, and otherwise coincide with the strict accessor — in
particular a present value of the wrong type produces the very same
error as the strict form, so defaulting suppresses only absence. -/
theorem defaulted_accessors_cover_only_absence :
    ∀ (nm k : String) (ms : List (String × JValue)) (bd : Bool) (id : Int)
      (dd sd : String),
      (findMember ms k = none →
        ObjectImplBase.getBooleanDefault ⟨nm, .vobj ms⟩ k bd = .ok bd ∧
        ObjectImplBase.getIntegerDefault ⟨nm, .vobj ms⟩ k id = .ok id ∧
        ObjectImplBase.getDoubleDefault ⟨nm, .vobj ms⟩ k dd = .ok dd ∧
        ObjectImplBase.getStringDefault ⟨nm, .vobj ms⟩ k sd = .ok sd) ∧
      (∀ v, findMember ms k = some v →
        ObjectImplBase.getBooleanDefault ⟨nm, .vobj ms⟩ k bd
          = ObjectImplBase.getBoolean ⟨nm, .vobj ms⟩ k ∧
        ObjectImplBase.getIntegerDefault ⟨nm, .vobj ms⟩ k id
          = ObjectImplBase.getInteger ⟨nm, .vobj ms⟩ k ∧
        ObjectImplBase.getDoubleDefault ⟨nm, .vobj ms⟩ k dd
          = ObjectImplBase.getDouble ⟨nm, .vobj ms⟩ k ∧
        ObjectImplBase.getStringDefault ⟨nm, .vobj ms⟩ k sd
          = ObjectImplBase.getString ⟨nm, .vobj ms⟩ k) := by
  intro nm k ms bd id dd sd
  constructor
  · intro h
    refine ⟨?_, ?_, ?_, ?_⟩ <;>
      simp [ObjectImplBase.getBooleanDefault, ObjectImplBase.getIntegerDefault,
            ObjectImplBase.getDoubleDefault, ObjectImplBase.getStringDefault,
            ObjectImplBase.hasObject, ObjectImplBase.members, h]
  · intro v h
    refine ⟨?_, ?_, ?_, ?_⟩ <;>
      simp [ObjectImplBase.getBooleanDefault, ObjectImplBase.getIntegerDefault,
            ObjectImplBase.getDoubleDefault, ObjectImplBase.getStringDefault,
            ObjectImplBase.hasObject, ObjectImplBase.members, h]

/-- Witness for C2 on the object with the single member `a : 1`: the
absent key `b` yields the default, while the present integer member `a`
makes the defaulted boolean accessor fail with exactly the strict
accessor's error. -/
theorem defaulted_accessors_cover_only_absence_witness :
    (findMember [("a", JValue.vint 1)] "b" = none ∧
      ObjectImplBase.getBooleanDefault ⟨"root", .vobj [("a", JValue.vint 1)]⟩ "b" true
        = .ok true) ∧
    (findMember [("a", JValue.vint 1)] "a" = some (JValue.vint 1) ∧
      ObjectImplBase.getBooleanDefault ⟨"root", .vobj [("a", JValue.vint 1)]⟩ "a" true
        = ObjectImplBase.getBoolean ⟨"root", .vobj [("a", JValue.vint 1)]⟩ "a" ∧
      ObjectImplBase.getBoolean ⟨"root", .vobj [("a", JValue.vint 1)]⟩ "a"
        = .error (missingMsg "a boolean" "a" "root")) := by
  refine ⟨⟨rfl, ?_⟩, rfl, ?_, rfl⟩
  · exact ((defaulted_accessors_cover_only_absence "root" "b" [("a", .vint 1)]
      true 0 "" "").1 rfl).1
  · exact (((defaulted_accessors_cover_only_absence "root" "a" [("a", .vint 1)]
      true 0 "" "").2) (JValue.vint 1) rfl).1

/-- C3: `getInteger` fails on a member tagged as a floating-point number
and `getDouble` fails on a member tagged as an integer — the numeric
kinds are never coerced into one another — while each succeeds on its
own kind and returns the stored value. -/
theorem numeric_kinds_never_coerced :
    ∀ (nm k : String) (ms : List (String × JValue)),
      (∀ r, findMember ms k = some (.vdouble r) →
        ObjectImplBase.getInteger ⟨nm, .vobj ms⟩ k
          = .error (missingMsg "an integer" k nm) ∧
        ObjectImplBase.getDouble ⟨nm, .vobj ms⟩ k = .ok r) ∧
      (∀ n, findMember ms k = some (.vint n) →
        ObjectImplBase.getDouble ⟨nm, .vobj ms⟩ k
          = .error (missingMsg "a double" k nm) ∧
        ObjectImplBase.getInteger ⟨nm, .vobj ms⟩ k = .ok n) ∧
      (∀ n, findMember ms k = some (.vuint n) →
        ObjectImplBase.getDouble ⟨nm, .vobj ms⟩ k
          = .error (missingMsg "a double" k nm)) := by
  intro nm k ms
  refine ⟨?_, ?_, ?_⟩ <;> intro x h <;>
    simp [ObjectImplBase.getInteger, ObjectImplBase.getDouble,
          ObjectImplBase.members, h]

/-- Witness for C3 on the object `(i : 3, d : 3.5)`: the integer
accessor rejects the double member, the double accessor rejects the
integer member, and each succeeds on its own kind. -/
theorem numeric_kinds_never_coerced_witness :
    (findMember [("i", JValue.vint 3), ("d", JValue.vdouble "3.5")] "d"
        = some (JValue.vdouble "3.5") ∧
      ObjectImplBase.getInteger
          ⟨"root", .vobj [("i", JValue.vint 3), ("d", JValue.vdouble "3.5")]⟩ "d"
        = .error (missingMsg "an integer" "d" "root") ∧
      ObjectImplBase.getDouble
          ⟨"root", .vobj [("i", JValue.vint 3), ("d", JValue.vdouble "3.5")]⟩ "d"
        = .ok "3.5") ∧
    (findMember [("i", JValue.vint 3), ("d", JValue.vdouble "3.5")] "i"
        = some (JValue.vint 3) ∧
      ObjectImplBase.getDouble
          ⟨"root", .vobj [("i", JValue.vint 3), ("d", JValue.vdouble "3.5")]⟩ "i"
        = .error (missingMsg "a double" "i" "root") ∧
      ObjectImplBase.getInteger
          ⟨"root", .vobj [("i", JValue.vint 3), ("d", JValue.vdouble "3.5")]⟩ "i"
        = .ok 3) := by
  have h1 := ((numeric_kinds_never_coerced "root" "d"
    [("i", .vint 3), ("d", .vdouble "3.5")]).1) "3.5" rfl
  have h2 := ((numeric_kinds_never_coerced "root" "i"
    [("i", .vint 3), ("d", .vdouble "3.5")]).2.1) 3 rfl
  exact ⟨⟨rfl, h1.1, h1.2⟩, ⟨rfl, h2.1, h2.2⟩⟩

/-- C4: on an absent key, `getObject` with `allow_empty` returns a view
over the canonical empty object — a view whose `empty()` is true and
whose iteration visits no member — while without `allow_empty` it fails
with the source's missing-key error. -/
theorem getObject_absent_key :
    ∀ (nm k : String) (ms : List (String × JValue)),
      findMember ms k = none →
      ObjectImplBase.getObject ⟨nm, .vobj ms⟩ k true = .ok ⟨k, .vobj []⟩ ∧
      ObjectImplBase.empty ⟨k, .vobj []⟩ = true ∧
      (∀ (σ : Type) (cb : σ → String → ObjectImplBase → σ × Bool) (s : σ),
        ObjectImplBase.iterate ⟨k, .vobj []⟩ cb s = s) ∧
      ObjectImplBase.getObject ⟨nm, .vobj ms⟩ k false
        = .error (missingMsg "an integer" k nm) := by
  intro nm k ms h
  refine ⟨?_, rfl, ?_, ?_⟩
  · simp [ObjectImplBase.getObject, ObjectImplBase.members, h]
  · intro σ cb s
    simp [ObjectImplBase.iterate, ObjectImplBase.members, iterateGo]
  · simp [ObjectImplBase.getObject, ObjectImplBase.members, h]

/-- Witness for C4: on the object with single member `a : 1` and absent
key `b`, `getObject` with `allow_empty` yields the canonical empty
object view (empty, iterating over nothing), and without `allow_empty`
it errors. -/
theorem getObject_absent_key_witness :
    findMember [("a", JValue.vint 1)] "b" = none ∧
    ObjectImplBase.getObject ⟨"root", .vobj [("a", JValue.vint 1)]⟩ "b" true
      = .ok ⟨"b", .vobj []⟩ ∧
    ObjectImplBase.empty ⟨"b", .vobj []⟩ = true ∧
    ObjectImplBase.iterate ⟨"b", .vobj []⟩
      (fun (log : List (String × JValue)) k cv => (log ++ [(k, cv.value_)], true)) []
      = [] ∧
    ObjectImplBase.getObject ⟨"root", .vobj [("a", JValue.vint 1)]⟩ "b" false
      = .error (missingMsg "an integer" "b" "root") := by
  have h := getObject_absent_key "root" "b" [("a", .vint 1)] rfl
  exact ⟨rfl, h.1, h.2.1, h.2.2.1 _ _ [], h.2.2.2⟩

/-- The iteration loop instrumented with a logging callback visits
exactly the members up to and including the first one on which the
decision function signals stop. -/
lemma iterateGo_log (d : String → JValue → Bool) :
    ∀ (ms log : List (String × JValue)),
      iterateGo (fun log k cv => (log ++ [(k, cv.value_)], d k cv.value_)) ms log
        = log ++ ms.take (ms.findIdx (fun m => !(d m.1 m.2)) + 1) := by
  intro ms
  induction ms with
  | nil => intro log; simp [iterateGo]
  | cons m rest ih =>
    intro log
    obtain ⟨k, v⟩ := m
    by_cases h : d k v
    · simp [iterateGo, h, List.findIdx_cons, ih, List.take_succ_cons]
    · simp at h
      simp [iterateGo, h, List.findIdx_cons, List.take_succ_cons]

/-- C6: iterating a view bound to an object offers each member in
declaration order to the callback together with a child view over that
member, and stops right after the first member on which the callback
signals stop (so no later member is visited); in particular over
`(x : 1, y : 2)` a callback that always continues sees exactly `x` then
`y`, and one that stops after `x` never sees `y`. -/
theorem iterate_declaration_order_and_early_stop :
    (∀ (nm : String) (ms : List (String × JValue)) (d : String → JValue → Bool),
      ObjectImplBase.iterate ⟨nm, .vobj ms⟩
          (fun log k cv => (log ++ [(k, cv.value_)], d k cv.value_))
          ([] : List (String × JValue))
        = ms.take (ms.findIdx (fun m => !(d m.1 m.2)) + 1)) ∧
    (ObjectImplBase.iterate ⟨"root", .vobj [("x", .vint 1), ("y", .vint 2)]⟩
        (fun log k cv => (log ++ [(k, cv.value_)], true))
        ([] : List (String × JValue))
      = [("x", .vint 1), ("y", .vint 2)]) ∧
    (ObjectImplBase.iterate ⟨"root", .vobj [("x", .vint 1), ("y", .vint 2)]⟩
        (fun log k cv => (log ++ [(k, cv.value_)], false))
        ([] : List (String × JValue))
      = [("x", .vint 1)]) := by
  refine ⟨?_, rfl, rfl⟩
  intro nm ms d
  simpa [ObjectImplBase.iterate, ObjectImplBase.members] using iterateGo_log d ms []

/-- The lookup `FindMember` resolves a key to its first occurrence: members in
front of the first occurrence with a different name do not affect the
result. -/
lemma findMember_first (k : String) (v : JValue) :
    ∀ (ms1 ms2 : List (String × JValue)), k ∉ ms1.map Prod.fst →
      findMember (ms1 ++ (k, v) :: ms2) k = some v := by
  intro ms1
  induction ms1 with
  | nil => intro ms2 _; simp [findMember]
  | cons m rest ih =>
    intro ms2 h
    obtain ⟨k1, v1⟩ := m
    have hne : k1 ≠ k := by
      intro hk; exact h (by simp [hk])
    have hrest : k ∉ rest.map Prod.fst := by
      intro hk; exact h (by simp [hk])
    simp [findMember, hne, ih ms2 hrest]

/-- C7: when a key occurs several times among an object's members,
every member-style lookup — the strict and defaulted scalar accessors,
`getObject` with either flag, `getObjectArray` and `getStringArray` —
behaves exactly as on the object containing only the first occurrence:
the first matching member in declaration order wins. -/
theorem lookup_resolves_first_match :
    ∀ (nm k : String) (v : JValue) (ms1 ms2 : List (String × JValue))
      (bd : Bool) (id : Int) (dd sd : String),
      k ∉ ms1.map Prod.fst →
      (ObjectImplBase.getBoolean ⟨nm, .vobj (ms1 ++ (k, v) :: ms2)⟩ k
        = ObjectImplBase.getBoolean ⟨nm, .vobj [(k, v)]⟩ k) ∧
      (ObjectImplBase.getInteger ⟨nm, .vobj (ms1 ++ (k, v) :: ms2)⟩ k
        = ObjectImplBase.getInteger ⟨nm, .vobj [(k, v)]⟩ k) ∧
      (ObjectImplBase.getDouble ⟨nm, .vobj (ms1 ++ (k, v) :: ms2)⟩ k
        = ObjectImplBase.getDouble ⟨nm, .vobj [(k, v)]⟩ k) ∧
      (ObjectImplBase.getString ⟨nm, .vobj (ms1 ++ (k, v) :: ms2)⟩ k
        = ObjectImplBase.getString ⟨nm, .vobj [(k, v)]⟩ k) ∧
      (ObjectImplBase.getBooleanDefault ⟨nm, .vobj (ms1 ++ (k, v) :: ms2)⟩ k bd
        = ObjectImplBase.getBooleanDefault ⟨nm, .vobj [(k, v)]⟩ k bd) ∧
      (ObjectImplBase.getIntegerDefault ⟨nm, .vobj (ms1 ++ (k, v) :: ms2)⟩ k id
        = ObjectImplBase.getIntegerDefault ⟨nm, .vobj [(k, v)]⟩ k id) ∧
      (ObjectImplBase.getDoubleDefault ⟨nm, .vobj (ms1 ++ (k, v) :: ms2)⟩ k dd
        = ObjectImplBase.getDoubleDefault ⟨nm, .vobj [(k, v)]⟩ k dd) ∧
      (ObjectImplBase.getStringDefault ⟨nm, .vobj (ms1 ++ (k, v) :: ms2)⟩ k sd
        = ObjectImplBase.getStringDefault ⟨nm, .vobj [(k, v)]⟩ k sd) ∧
      (∀ ae, ObjectImplBase.getObject ⟨nm, .vobj (ms1 ++ (k, v) :: ms2)⟩ k ae
        = ObjectImplBase.getObject ⟨nm, .vobj [(k, v)]⟩ k ae) ∧
      (ObjectImplBase.getObjectArray ⟨nm, .vobj (ms1 ++ (k, v) :: ms2)⟩ k
        = ObjectImplBase.getObjectArray ⟨nm, .vobj [(k, v)]⟩ k) ∧
      (ObjectImplBase.getStringArray ⟨nm, .vobj (ms1 ++ (k, v) :: ms2)⟩ k
        = ObjectImplBase.getStringArray ⟨nm, .vobj [(k, v)]⟩ k) := by
  intro nm k v ms1 ms2 bd id dd sd h
  have hf := findMember_first k v ms1 ms2 h
  have hf1 : findMember [(k, v)] k = some v := by simp [findMember]
  refine ⟨?_, ?_, ?_, ?_, ?_, ?_, ?_, ?_, ?_, ?_, ?_⟩ <;>
    try intro ae
  all_goals
    simp [ObjectImplBase.getBoolean, ObjectImplBase.getInteger,
          ObjectImplBase.getDouble, ObjectImplBase.getString,
          ObjectImplBase.getBooleanDefault, ObjectImplBase.getIntegerDefault,
          ObjectImplBase.getDoubleDefault, ObjectImplBase.getStringDefault,
          ObjectImplBase.getObject, ObjectImplBase.getObjectArray,
          ObjectImplBase.getStringArray, ObjectImplBase.hasObject,
          ObjectImplBase.members, hf, hf1]

/-- Witness for C7 on the object `(j : null, k : 1, k : 2)`, whose key
`k` is duplicated: every lookup of `k` behaves as on the object with
only the first `k` member, and in particular `getInteger` returns `1`,
the first match. -/
theorem lookup_resolves_first_match_witness :
    ("k" ∉ ([("j", JValue.vnull)].map Prod.fst)) ∧
    (ObjectImplBase.getInteger
        ⟨"root", .vobj ([("j", JValue.vnull)] ++ ("k", JValue.vint 1) :: [("k", JValue.vint 2)])⟩ "k"
      = ObjectImplBase.getInteger ⟨"root", .vobj [("k", JValue.vint 1)]⟩ "k") ∧
    (ObjectImplBase.getInteger
        ⟨"root", .vobj [("j", JValue.vnull), ("k", JValue.vint 1), ("k", JValue.vint 2)]⟩ "k"
      = .ok 1) := by
  refine ⟨by decide, ?_, rfl⟩
  exact (lookup_resolves_first_match "root" "k" (JValue.vint 1)
    [("j", JValue.vnull)] [("k", JValue.vint 2)] true 0 "" "" (by decide)).2.1

/-- C10: `asObjectArray` and `getObjectArray` succeed on every array,
including the empty one, returning one child view per element in order,
and the not-an-array error arises exactly on non-array targets. -/
theorem array_accessors_accept_empty_arrays :
    (∀ nm, ObjectImplBase.asObjectArray ⟨nm, .varr []⟩ = .ok []) ∧
    (∀ nm es, ObjectImplBase.asObjectArray ⟨nm, .varr es⟩
      = .ok (es.map fun e => ⟨nm ++ " (array item)", e⟩)) ∧
    (∀ (nm k : String) (ms : List (String × JValue)),
      findMember ms k = some (.varr []) →
      ObjectImplBase.getObjectArray ⟨nm, .vobj ms⟩ k = .ok []) ∧
    (∀ (nm : String) (v : JValue), (∀ es, v ≠ .varr es) →
      ObjectImplBase.asObjectArray ⟨nm, v⟩
        = .error (quoted nm ++ " is not an array")) ∧
    (∀ nm es, ObjectImplBase.asObjectArray ⟨nm, .varr es⟩
      ≠ .error (quoted nm ++ " is not an array")) := by
  refine ⟨?_, ?_, ?_, ?_, ?_⟩
  · intro nm; simp [ObjectImplBase.asObjectArray]
  · intro nm es; simp [ObjectImplBase.asObjectArray]
  · intro nm k ms h
    simp [ObjectImplBase.getObjectArray, ObjectImplBase.members, h]
  · intro nm v hv
    cases v <;> simp [ObjectImplBase.asObjectArray]
    exact absurd rfl (hv _)
  · intro nm es
    simp [ObjectImplBase.asObjectArray]

/-- Witness for C10: the empty-array member `a` of the object
`(a : [])` materializes as an empty view sequence, a three-element
array materializes three views in order, and a string node gets the
not-an-array error. -/
theorem array_accessors_accept_empty_arrays_witness :
    ObjectImplBase.asObjectArray ⟨"root", .varr []⟩ = .ok [] ∧
    ObjectImplBase.getObjectArray ⟨"root", .vobj [("a", JValue.varr [])]⟩ "a"
      = .ok [] ∧
    ObjectImplBase.asObjectArray
        ⟨"n", .varr [JValue.vint 1, JValue.vint 2, JValue.vint 3]⟩
      = .ok [⟨"n (array item)", JValue.vint 1⟩, ⟨"n (array item)", JValue.vint 2⟩,
             ⟨"n (array item)", JValue.vint 3⟩] ∧
    ObjectImplBase.asObjectArray ⟨"n", .vstr "s"⟩
      = .error (quoted "n" ++ " is not an array") := by
  refine ⟨array_accessors_accept_empty_arrays.1 "root",
    array_accessors_accept_empty_arrays.2.2.1 "root" "a" [("a", JValue.varr [])] rfl,
    rfl,
    array_accessors_accept_empty_arrays.2.2.2.1 "n" (JValue.vstr "s")
      (fun es h => by cases h)⟩

/-- The first character of an appended string is the first character of
its left part. -/
lemma head_append (s t : String) (c : Char) (h : s.data.head? = some c) :
    (s ++ t).data.head? = some c := by
  rw [String.data_append]
  cases hd : s.data with
  | nil => simp [hd] at h
  | cons a l =>
    simp [hd] at h
    simp [hd, h]

/-- Every missing-or-wrong-type message starts with the letter k. -/
lemma missingMsg_head (what key viewName : String) :
    (missingMsg what key viewName).data.head? = some 'k' := by
  unfold missingMsg
  repeat apply head_append
  rfl

/-- Every all-strings message starts with the letter a. -/
lemma allStringsMsg_head (k : String) :
    ("array " ++ quoted k ++ " does not contain all strings").data.head? = some 'a' := by
  repeat apply head_append
  rfl

/-- The not-an-array error of `getStringArray` and its non-string
element error are distinct for all key and view names. -/
lemma missing_ne_allStrings (what k k2 nm : String) :
    missingMsg what k nm ≠ "array " ++ quoted k2 ++ " does not contain all strings" := by
  intro h
  have h1 := missingMsg_head what k nm
  rw [h, allStringsMsg_head] at h1
  exact absurd h1 (by decide)

/-- The element loop of `getStringArray` collects a list of string
nodes in order. -/
lemma stringElems_map_vstr (name : String) :
    ∀ ss : List String, stringElems name (ss.map JValue.vstr) = .ok ss := by
  intro ss
  induction ss with
  | nil => rfl
  | cons s rest ih => simp [stringElems, ih, Except.map]

/-- The element loop of `getStringArray` fails on the first non-string
element, whatever follows it. -/
lemma stringElems_non_string (name : String) (v : JValue) (hv : ∀ s, v ≠ .vstr s) :
    ∀ (pre : List String) (post : List JValue),
      stringElems name (pre.map JValue.vstr ++ v :: post)
        = .error ("array " ++ quoted name ++ " does not contain all strings") := by
  intro pre
  induction pre with
  | nil =>
    intro post
    cases v with
    | vstr s => exact absurd rfl (hv s)
    | vnull => rfl
    | vbool b => rfl
    | vint n => rfl
    | vuint n => rfl
    | vdouble r => rfl
    | varr es => rfl
    | vobj ms2 => rfl
  | cons s rest ih =>
    intro post
    simp [stringElems, ih post, Except.map]

/-- C5: `getStringArray` fails with the not-an-array error when the key
is absent or its value is not an array; an array containing a
non-string element (whatever strings precede or elements follow it)
fails with the distinct all-strings error instead of being skipped or
coerced; an all-string array yields its strings in array order; and the
two error messages differ for every key and view name. -/
theorem getStringArray_requires_all_strings :
    ∀ (nm k : String) (ms : List (String × JValue)),
      (findMember ms k = none →
        ObjectImplBase.getStringArray ⟨nm, .vobj ms⟩ k
          = .error (missingMsg "an array" k nm)) ∧
      (∀ v, findMember ms k = some v → (∀ es, v ≠ .varr es) →
        ObjectImplBase.getStringArray ⟨nm, .vobj ms⟩ k
          = .error (missingMsg "an array" k nm)) ∧
      (∀ ss : List String, findMember ms k = some (.varr (ss.map JValue.vstr)) →
        ObjectImplBase.getStringArray ⟨nm, .vobj ms⟩ k = .ok ss) ∧
      (∀ (pre : List String) (v : JValue) (post : List JValue),
        findMember ms k = some (.varr (pre.map JValue.vstr ++ v :: post)) →
        (∀ s, v ≠ .vstr s) →
        ObjectImplBase.getStringArray ⟨nm, .vobj ms⟩ k
          = .error ("array " ++ quoted k ++ " does not contain all strings")) ∧
      (missingMsg "an array" k nm
        ≠ "array " ++ quoted k ++ " does not contain all strings") := by
  intro nm k ms
  refine ⟨?_, ?_, ?_, ?_, missing_ne_allStrings _ _ _ _⟩
  · intro h
    simp [ObjectImplBase.getStringArray, ObjectImplBase.members, h]
  · intro v h hv
    cases v with
    | varr es => exact absurd rfl (hv es)
    | vstr s => simp [ObjectImplBase.getStringArray, ObjectImplBase.members, h]
    | vnull => simp [ObjectImplBase.getStringArray, ObjectImplBase.members, h]
    | vbool b => simp [ObjectImplBase.getStringArray, ObjectImplBase.members, h]
    | vint n => simp [ObjectImplBase.getStringArray, ObjectImplBase.members, h]
    | vuint n => simp [ObjectImplBase.getStringArray, ObjectImplBase.members, h]
    | vdouble r => simp [ObjectImplBase.getStringArray, ObjectImplBase.members, h]
    | vobj ms2 => simp [ObjectImplBase.getStringArray, ObjectImplBase.members, h]
  · intro ss h
    simp [ObjectImplBase.getStringArray, ObjectImplBase.members, h,
          stringElems_map_vstr]
  · intro pre v post h hv
    simp [ObjectImplBase.getStringArray, ObjectImplBase.members, h,
          stringElems_non_string k v hv pre post]

/-- Witness for C5: on the array `[a, 2, c]` bound to key `l` the
accessor fails with the all-strings error, whose text differs from the
not-an-array error; an all-string array yields its strings in order;
and a string-typed member gets the not-an-array error. -/
theorem getStringArray_requires_all_strings_witness :
    ObjectImplBase.getStringArray
        ⟨"root", .vobj [("l", JValue.varr
          [JValue.vstr "a", JValue.vint 2, JValue.vstr "c"])]⟩ "l"
      = .error ("array " ++ quoted "l" ++ " does not contain all strings") ∧
    (missingMsg "an array" "l" "root"
      ≠ "array " ++ quoted "l" ++ " does not contain all strings") ∧
    ObjectImplBase.getStringArray
        ⟨"root", .vobj [("m", JValue.varr [JValue.vstr "a", JValue.vstr "c"])]⟩ "m"
      = .ok ["a", "c"] ∧
    ObjectImplBase.getStringArray ⟨"root", .vobj [("s", JValue.vstr "x")]⟩ "s"
      = .error (missingMsg "an array" "s" "root") := by
  have hm := getStringArray_requires_all_strings "root" "l"
    [("l", JValue.varr [JValue.vstr "a", JValue.vint 2, JValue.vstr "c"])]
  refine ⟨?_, hm.2.2.2.2, ?_, ?_⟩
  · exact hm.2.2.2.1 ["a"] (JValue.vint 2) [JValue.vstr "c"] rfl
      (fun s h => by cases h)
  · exact (getStringArray_requires_all_strings "root" "m"
      [("m", JValue.varr [JValue.vstr "a", JValue.vstr "c"])]).2.2.1 ["a", "c"] rfl
  · exact (getStringArray_requires_all_strings "root" "s"
      [("s", JValue.vstr "x")]).2.1 (JValue.vstr "x") rfl (fun es h => by cases h)

/-- C9: loading text either fails, carrying the parse failure's offset
(a natural number, hence non-negative) and message and producing no
root view, or succeeds with the root view named `root` over the parsed
document and no error; concretely, text with an unbalanced curly
bracket fails with an offset-carrying message and the balanced variant
yields a root view.  The parser itself is the external collaborator
modelled from the spec in `parseDocument`. -/
theorem loadFromString_error_or_root :
    (∀ text : String,
      (∃ off msg, parseDocument text = .error (off, msg) ∧
        Factory.LoadFromString text
          = .error ("Error(offset " ++ toString off ++ "): " ++ msg ++ "\n")) ∨
      (∃ v, parseDocument text = .ok v ∧
        Factory.LoadFromString text = .ok ⟨"root", v⟩)) ∧
    (Factory.LoadFromString "\x7b\"a\":1"
      = .error "Error(offset 6): Missing a comma or curly bracket after an object member.\n") ∧
    (Factory.LoadFromString "\x7b\"a\":1\x7d"
      = .ok ⟨"root", .vobj [("a", .vint 1)]⟩) := by
  refine ⟨?_, rfl, rfl⟩
  intro text
  cases h : parseDocument text with
  | error e =>
    left
    exact ⟨e.1, e.2, by simp, by simp [Factory.LoadFromString, h]⟩
  | ok v =>
    right
    exact ⟨v, rfl, by simp [Factory.LoadFromString, h]⟩

/-- The modulus `M64` is positive. -/
lemma M64_pos : 0 < M64 := by norm_num [M64]

/-- The modulus `M64` as a power of two. -/
lemma M64_eq : M64 = 2 ^ 64 := by norm_num [M64]

/-- The `shift_mix` step stays below 2 to the 64. -/
lemma shiftMix_lt (v : Nat) (h : v < M64) : shiftMix v < M64 := by
  have hs : v >>> 47 ≤ v := by
    rw [Nat.shiftRight_eq_div_pow]
    exact Nat.div_le_self _ _
  rw [M64_eq] at h ⊢
  exact Nat.xor_lt_two_pow h (lt_of_le_of_lt hs h)

/-- The string hash is a 64-bit value: its range is finite. -/
lemma stdHashString_lt (s : String) : stdHashString s < M64 := by
  simp only [stdHashString, hashBytes]
  exact shiftMix_lt _ (Nat.mod_lt _ M64_pos)

/-- Arrays nested to a given depth: an infinite family of values whose
canonical serializations are pairwise distinct (their lengths differ). -/
def nestArr : Nat → JValue
  | 0 => .vnull
  | n + 1 => .varr [nestArr n]

/-- The serialization of the depth-n nested array has length 2n+4. -/
lemma writeJson_nestArr_length : ∀ n, (writeJson (nestArr n)).length = 2 * n + 4 := by
  intro n
  induction n with
  | zero => rfl
  | succ n ih =>
    show ("[" ++ writeElems [nestArr n] ++ "]").length = 2 * (n + 1) + 4
    rw [String.length_append, String.length_append]
    show 1 + (writeJson (nestArr n)).length + 1 = 2 * (n + 1) + 4
    rw [ih]
    omega

/-- Counterexample to C1 as stated: hashing cannot be injective on
canonical serializations, because the hash is a 64-bit value while the
family of nested arrays has serializations of unboundedly many distinct
lengths; hence equal hashes do not imply byte-identical serializations,
and the claimed equivalence is false. -/
theorem hash_eq_iff_serialization_eq_false :
    ¬ (∀ a b : ObjectImplBase,
        a.hash = b.hash ↔ writeJson a.value_ = writeJson b.value_) := by
  intro H
  obtain ⟨m, n, hmn, heq⟩ := Finite.exists_ne_map_eq_of_infinite
    (fun i : Nat =>
      (⟨ObjectImplBase.hash ⟨"root", nestArr i⟩, stdHashString_lt _⟩ : Fin M64))
  apply hmn
  have hh : ObjectImplBase.hash ⟨"root", nestArr m⟩
      = ObjectImplBase.hash ⟨"root", nestArr n⟩ := congrArg Fin.val heq
  have hser := (H ⟨"root", nestArr m⟩ ⟨"root", nestArr n⟩).mp hh
  have hlen := congrArg String.length hser
  rw [writeJson_nestArr_length, writeJson_nestArr_length] at hlen
  omega

/-- C1 (amended): the hash is a pure function of the canonical minimal
serialization — byte-identical serializations always hash equal, the
hash is order sensitive (reordering the members of `(a : 1, b : 2)`
changes the serialization and the hash), and re-parsing byte-identical
text deterministically yields the same hash; only the converse (equal
hashes forcing byte-identical serializations) fails, as the
counterexample shows. -/
theorem hash_pure_function_of_serialization :
    (∀ a b : ObjectImplBase,
      writeJson a.value_ = writeJson b.value_ → a.hash = b.hash) ∧
    (ObjectImplBase.hash ⟨"root", .vobj [("a", .vint 1), ("b", .vint 2)]⟩
      ≠ ObjectImplBase.hash ⟨"root", .vobj [("b", .vint 2), ("a", .vint 1)]⟩) ∧
    (∀ (text : String) (r1 r2 : ObjectImplBase),
      Factory.LoadFromString text = .ok r1 → Factory.LoadFromString text = .ok r2 →
      r1.hash = r2.hash) := by
  refine ⟨?_, by decide, ?_⟩
  · intro a b h
    exact congrArg stdHashString h
  · intro text r1 r2 h1 h2
    rw [h1] at h2
    cases h2
    rfl

/-- Witness for the amended C1: two views differing only in their
diagnostic name serialize identically and hash equal, and loading the
same text twice yields root views with equal hashes. -/
theorem hash_pure_function_of_serialization_witness :
    (writeJson (JValue.vobj [("a", JValue.vint 1)])
      = writeJson (JValue.vobj [("a", JValue.vint 1)]) ∧
     ObjectImplBase.hash ⟨"root", .vobj [("a", JValue.vint 1)]⟩
      = ObjectImplBase.hash ⟨"other", .vobj [("a", JValue.vint 1)]⟩) ∧
    (Factory.LoadFromString "\x7b\"a\":1\x7d" = .ok ⟨"root", .vobj [("a", JValue.vint 1)]⟩ ∧
     ObjectImplBase.hash ⟨"root", .vobj [("a", JValue.vint 1)]⟩
      = ObjectImplBase.hash ⟨"root", .vobj [("a", JValue.vint 1)]⟩) := by
  refine ⟨⟨rfl, ?_⟩, rfl, ?_⟩
  · exact hash_pure_function_of_serialization.1
      ⟨"root", .vobj [("a", JValue.vint 1)]⟩ ⟨"other", .vobj [("a", JValue.vint 1)]⟩ rfl
  · exact hash_pure_function_of_serialization.2.2 "\x7b\"a\":1\x7d"
      ⟨"root", .vobj [("a", JValue.vint 1)]⟩ ⟨"root", .vobj [("a", JValue.vint 1)]⟩ rfl rfl

end JsonLoader
